import Mathlib

/-!
Verification of the scene-graph program in `src/Graph.cpp`.

The embedding models glm float scalars by exact rationals (`ℚ`): all claims
under scrutiny are algebraic identities or control-flow facts, none depends on
rounding.  glm's 4x4 float matrices are modelled as `Matrix (Fin 4) (Fin 4) ℚ`
in the usual mathematical (row, column) convention; glm stores matrices
column-major but acts on column vectors, so `glm::translate`, `glm::scale`,
`glm::mat4_cast`, `glm::row` and matrix products below are written as the
mathematical matrices they denote.
-/

/-- glm::vec3 with rational scalars. -/
structure Vec3 where
  x : ℚ
  y : ℚ
  z : ℚ
deriving DecidableEq, Repr

/-- glm::vec4 with rational scalars. -/
structure Vec4 where
  x : ℚ
  y : ℚ
  z : ℚ
  w : ℚ
deriving DecidableEq, Repr

/-- glm::quat.  Field order follows glm's constructor `quat(w, x, y, z)`,
so a braced initializer `{a, b, c, d}` in the source is `⟨a, b, c, d⟩` here
with `w := a`. -/
structure Quat where
  w : ℚ
  x : ℚ
  y : ℚ
  z : ℚ
deriving DecidableEq, Repr

/-- glm::mat4 as a mathematical 4x4 rational matrix. -/
abbrev Mat4 := Matrix (Fin 4) (Fin 4) ℚ

/-- mat4(1.0f): the identity matrix. -/
def idMat4 : Mat4 := !![1,0,0,0; 0,1,0,0; 0,0,1,0; 0,0,0,1]

/-- glm::translate(mat4(1.0f), p): translation matrix with p in the last
column. -/
def glmTranslate (p : Vec3) : Mat4 :=
  !![1,0,0,p.x; 0,1,0,p.y; 0,0,1,p.z; 0,0,0,1]

/-- glm::scale(mat4(1.0f), s): diagonal scaling matrix. -/
def glmScale (s : Vec3) : Mat4 :=
  !![s.x,0,0,0; 0,s.y,0,0; 0,0,s.z,0; 0,0,0,1]

/-- glm::mat4_cast(q): rotation matrix of a quaternion, glm's formula
(written for mathematical row/column indices; glm stores the transpose
layout column-major, denoting the same linear map). -/
def mat4_cast (q : Quat) : Mat4 :=
  !![1 - 2*(q.y*q.y + q.z*q.z), 2*(q.x*q.y - q.w*q.z), 2*(q.x*q.z + q.w*q.y), 0;
     2*(q.x*q.y + q.w*q.z), 1 - 2*(q.x*q.x + q.z*q.z), 2*(q.y*q.z - q.w*q.x), 0;
     2*(q.x*q.z - q.w*q.y), 2*(q.y*q.z + q.w*q.x), 1 - 2*(q.x*q.x + q.y*q.y), 0;
     0, 0, 0, 1]

/-- struct BoundingBox { vec3 min, max; } -/
structure BoundingBox where
  min : Vec3
  max : Vec3
deriving DecidableEq, Repr

/-- class Transform: position / rotation / scale plus the mutable cached
matrix and dirty flag. -/
structure Transform where
  position : Vec3
  rotation : Quat
  scale : Vec3
  localMatrix : Mat4
  dirty : Bool

/-- Transform's constructor: position(0), rotation(quat() = the identity
quaternion), scale(1), localMatrix(1), dirty(true). -/
def Transform.init : Transform :=
  { position := ⟨0, 0, 0⟩
    rotation := ⟨1, 0, 0, 0⟩
    scale := ⟨1, 1, 1⟩
    localMatrix := idMat4
    dirty := true }

def Transform.setPosition (t : Transform) (pos : Vec3) : Transform :=
  { t with position := pos, dirty := true }

def Transform.setRotation (t : Transform) (rot : Quat) : Transform :=
  { t with rotation := rot, dirty := true }

def Transform.setScale (t : Transform) (scl : Vec3) : Transform :=
  { t with scale := scl, dirty := true }

/-- The matrix getMatrix() computes when dirty: t * r * s. -/
def Transform.trs (t : Transform) : Mat4 :=
  glmTranslate t.position * mat4_cast t.rotation * glmScale t.scale

/-- getMatrix(): if dirty, recompute `t * r * s` into the cache and clear the
flag; always return the (possibly refreshed) cache.  The method mutates the
`mutable` fields, so it is modelled as returning the value together with the
updated object. -/
def Transform.getMatrix (t : Transform) : Mat4 × Transform :=
  if t.dirty then
    (t.trs, { t with localMatrix := t.trs, dirty := false })
  else
    (t.localMatrix, t)

/-- The value returned by a getMatrix() call. -/
def Transform.getMatrixVal (t : Transform) : Mat4 :=
  t.getMatrix.1

/-- One client operation on a Transform: a setter or a getMatrix() read. -/
inductive TOp where
  | setPosition (v : Vec3)
  | setRotation (q : Quat)
  | setScale (v : Vec3)
  | read
deriving Repr

/-- Whether the operation is one of the three setters. -/
def TOp.isMutation : TOp → Bool
  | .setPosition _ => true
  | .setRotation _ => true
  | .setScale _ => true
  | .read => false

/-- Apply one operation to the Transform state; a read keeps only the state
effect of getMatrix() (the cache refresh). -/
def TOp.apply (t : Transform) : TOp → Transform
  | .setPosition v => t.setPosition v
  | .setRotation q => t.setRotation q
  | .setScale v => t.setScale v
  | .read => t.getMatrix.2

/-- Run a sequence of operations left to right. -/
def applyOps (t : Transform) (ops : List TOp) : Transform :=
  ops.foldl TOp.apply t

/-- Cache coherence: either the matrix is marked dirty or the cache holds the
composed matrix of the current components. -/
def Transform.coherent (t : Transform) : Prop :=
  t.dirty = true ∨ t.localMatrix = t.trs

theorem coherent_apply {t : Transform} (h : t.coherent) (op : TOp) :
    (op.apply t).coherent := by
  cases op with
  | setPosition v => exact Or.inl rfl
  | setRotation q => exact Or.inl rfl
  | setScale v => exact Or.inl rfl
  | read =>
    unfold TOp.apply Transform.getMatrix
    by_cases hd : t.dirty
    · simp only [hd, if_true]
      exact Or.inr rfl
    · simp only [hd, if_false, Bool.false_eq_true]
      exact h

theorem coherent_mutation {t : Transform} {op : TOp}
    (h : op.isMutation = true) : (op.apply t).coherent := by
  cases op with
  | setPosition v => exact Or.inl rfl
  | setRotation q => exact Or.inl rfl
  | setScale v => exact Or.inl rfl
  | read => simp [TOp.isMutation] at h

theorem coherent_applyOps {t : Transform} (h : t.coherent) (ops : List TOp) :
    (applyOps t ops).coherent := by
  induction ops generalizing t with
  | nil => exact h
  | cons op rest ih => exact ih (coherent_apply h op)

theorem getMatrix_of_coherent {t : Transform} (h : t.coherent) :
    t.getMatrix.1 = t.trs := by
  unfold Transform.getMatrix
  by_cases hd : t.dirty
  · simp [hd]
  · rcases h with h | h
    · exact absurd h hd
    · simp [hd, h]

theorem coherent_applyOps_of_mutation {t : Transform} {ops : List TOp}
    (h : ops.any TOp.isMutation = true) : (applyOps t ops).coherent := by
  induction ops generalizing t with
  | nil => simp at h
  | cons op rest ih =>
    by_cases hr : rest.any TOp.isMutation = true
    · exact ih hr
    · have hop : op.isMutation = true := by
        simp only [List.any_cons, Bool.or_eq_true] at h
        tauto
      show (applyOps (op.apply t) rest).coherent
      exact coherent_applyOps (coherent_mutation hop) rest

/-- C1: after any operation sequence containing at least one
setPosition/setRotation/setScale mutation (with getMatrix() reads interleaved
arbitrarily, before or after), the value of getMatrix() is exactly
`translate(position) * rotate(rotation) * scale(scale)` of the current
(most recently set) component values. -/
theorem getMatrix_cache_correct (t : Transform) (ops : List TOp)
    (h : ops.any TOp.isMutation = true) :
    (applyOps t ops).getMatrix.1 = (applyOps t ops).trs :=
  getMatrix_of_coherent (coherent_applyOps_of_mutation h)

/-- Witness for C1: a concrete stale-cache initial state, a setPosition
mutation followed by two reads; the final getMatrix() value is the composed
matrix of the current components. -/
theorem getMatrix_cache_correct_witness :
    ([TOp.setPosition ⟨1, 2, 3⟩, TOp.read, TOp.read].any TOp.isMutation = true)
    ∧ (applyOps { Transform.init with dirty := false, localMatrix := glmScale ⟨5, 5, 5⟩ }
          [TOp.setPosition ⟨1, 2, 3⟩, TOp.read, TOp.read]).getMatrix.1
        = (applyOps { Transform.init with dirty := false, localMatrix := glmScale ⟨5, 5, 5⟩ }
          [TOp.setPosition ⟨1, 2, 3⟩, TOp.read, TOp.read]).trs :=
  ⟨by decide,
   getMatrix_cache_correct _ _ (by decide)⟩

/-- struct LODLevel { float distanceThreshold; std::string meshName; } -/
structure LODLevel where
  distanceThreshold : ℚ
  meshName : String
deriving DecidableEq, Repr

/-- One step of the sort `addLevel` performs: insert an element into a list,
before the first entry of strictly larger threshold.  `sortLevels` below is a
sort with `std::sort`'s comparator (ascending `distanceThreshold`); the order
of equal-threshold entries is unspecified by `std::sort`, and this model picks
the stable order. -/
def insertLevel (a : LODLevel) : List LODLevel → List LODLevel
  | [] => [a]
  | b :: l =>
    if a.distanceThreshold ≤ b.distanceThreshold then a :: b :: l
    else b :: insertLevel a l

/-- The sort run at the end of addLevel (`std::sort` by ascending
`distanceThreshold`). -/
def sortLevels (l : List LODLevel) : List LODLevel :=
  l.foldr insertLevel []

/-- class LOD { std::vector<LODLevel> levels; ... } -/
structure LOD where
  levels : List LODLevel
deriving DecidableEq, Repr

/-- addLevel: push_back the new level, then sort ascending by threshold. -/
def LOD.addLevel (l : LOD) (distance : ℚ) (mesh : String) : LOD :=
  ⟨sortLevels (l.levels ++ [⟨distance, mesh⟩])⟩

/-- getMesh: return the mesh of the first level whose threshold exceeds the
distance; otherwise the last level's mesh, or "" when the list is empty. -/
def LOD.getMesh (l : LOD) (distance : ℚ) : String :=
  match l.levels.find? (fun lvl => decide (distance < lvl.distanceThreshold)) with
  | some lvl => lvl.meshName
  | none =>
    match l.levels.getLast? with
    | none => ""
    | some lvl => lvl.meshName

/-- The levels list is sorted ascending by distance threshold. -/
def lodSorted (levels : List LODLevel) : Prop :=
  levels.Pairwise (fun a b => a.distanceThreshold ≤ b.distanceThreshold)

instance (levels : List LODLevel) : Decidable (lodSorted levels) := by
  unfold lodSorted
  infer_instance

/-- class SceneNode.  `shared_ptr<SceneNode>` handles are modelled as indices
into a `World` map; `weak_ptr parent` is an optional index. -/
structure SceneNode where
  name : String
  transform : Transform
  parent : Option Nat
  children : List Nat
  boundingBox : BoundingBox
  lod : LOD
  visible : Bool

/-- The heap of scene nodes: what each handle points to. -/
abbrev World := Nat → SceneNode

/-- SceneNode's constructor: name(n), boundingBox({{-1,-1,-1},{1,1,1}}),
visible(true); the remaining members are default-constructed (identity
Transform, empty weak_ptr, empty children vector, empty LOD). -/
def SceneNode.ofName (n : String) : SceneNode :=
  { name := n
    transform := Transform.init
    parent := none
    children := []
    boundingBox := ⟨⟨-1, -1, -1⟩, ⟨1, 1, 1⟩⟩
    lod := ⟨[]⟩
    visible := true }

/-- The effect of `children.erase(std::remove(children.begin(),
children.end(), child), children.end())`: every element equal (as a
shared_ptr, i.e. same handle) to `child` is removed, the rest keep their
order. -/
def eraseRemove (child : Nat) : List Nat → List Nat
  | [] => []
  | x :: xs => if x = child then eraseRemove child xs else x :: eraseRemove child xs

/-- SceneNode::removeChild on the node `p` of the world. -/
def removeChild (w : World) (p child : Nat) : World :=
  fun i =>
    if i = p then { w p with children := eraseRemove child (w p).children }
    else w i

/-- SceneNode::getWorldMatrix: if the parent handle is live, compose the
parent's world matrix with this node's local matrix, else return the local
matrix.  `fuel` bounds the recursion depth of the pointer chase (the C++
recursion terminates only on acyclic parent chains). -/
def getWorldMatrix (w : World) : Nat → Nat → Mat4
  | 0, i => (w i).transform.getMatrixVal
  | fuel + 1, i =>
    match (w i).parent with
    | some p => getWorldMatrix w fuel p * (w i).transform.getMatrixVal
    | none => (w i).transform.getMatrixVal

theorem getWorldMatrix_root (w : World) (i : Nat) (h : (w i).parent = none) :
    ∀ fuel, getWorldMatrix w fuel i = (w i).transform.getMatrixVal := by
  intro fuel
  cases fuel with
  | zero => rfl
  | succ n => simp [getWorldMatrix, h]

/-- C2: for a chain root→A→B→C of parent references with arbitrary local
transforms, C.getWorldMatrix() is the product of the four local matrices in
root-to-C order; and a node without a parent returns exactly its own local
matrix. -/
theorem getWorldMatrix_chain (w : World) (r a b c : Nat) (fuel : Nat)
    (hr : (w r).parent = none) (ha : (w a).parent = some r)
    (hb : (w b).parent = some a) (hc : (w c).parent = some b)
    (hfuel : 3 ≤ fuel) :
    getWorldMatrix w fuel c
      = (w r).transform.getMatrixVal * (w a).transform.getMatrixVal
        * (w b).transform.getMatrixVal * (w c).transform.getMatrixVal
    ∧ getWorldMatrix w fuel r = (w r).transform.getMatrixVal := by
  obtain ⟨k, rfl⟩ : ∃ k, fuel = k + 3 := ⟨fuel - 3, by omega⟩
  refine ⟨?_, getWorldMatrix_root w r hr _⟩
  show getWorldMatrix w (k + 2 + 1) c = _
  rw [getWorldMatrix, hc]
  show getWorldMatrix w (k + 1 + 1) b * _ = _
  rw [getWorldMatrix, hb]
  show getWorldMatrix w (k + 0 + 1) a * _ * _ = _
  rw [getWorldMatrix, ha]
  show getWorldMatrix w k r * _ * _ * _ = _
  rw [getWorldMatrix_root w r hr]

/-- A concrete four-node parent chain 0→1→2→3 (0 the root). -/
def chainWorld : World := fun i =>
  if i = 0 then SceneNode.ofName "root"
  else { SceneNode.ofName "kid" with parent := some (i - 1) }

/-- Witness for C2 on the concrete chain world. -/
theorem getWorldMatrix_chain_witness :
    ((chainWorld 0).parent = none ∧ (chainWorld 1).parent = some 0
      ∧ (chainWorld 2).parent = some 1 ∧ (chainWorld 3).parent = some 2
      ∧ 3 ≤ 5)
    ∧ (getWorldMatrix chainWorld 5 3
        = (chainWorld 0).transform.getMatrixVal * (chainWorld 1).transform.getMatrixVal
          * (chainWorld 2).transform.getMatrixVal * (chainWorld 3).transform.getMatrixVal
      ∧ getWorldMatrix chainWorld 5 0 = (chainWorld 0).transform.getMatrixVal) :=
  ⟨⟨rfl, rfl, rfl, rfl, by omega⟩,
   getWorldMatrix_chain chainWorld 0 1 2 3 5 rfl rfl rfl rfl (by omega)⟩

theorem eraseRemove_not_mem (child : Nat) (l : List Nat) :
    child ∉ eraseRemove child l := by
  induction l with
  | nil => simp [eraseRemove]
  | cons x xs ih =>
    by_cases hx : x = child
    · simpa [eraseRemove, hx] using ih
    · simp [eraseRemove, hx, ih, Ne.symm hx]

theorem eraseRemove_sublist (child : Nat) (l : List Nat) :
    (eraseRemove child l).Sublist l := by
  induction l with
  | nil => simp [eraseRemove]
  | cons x xs ih =>
    rw [eraseRemove]
    by_cases hx : x = child
    · rw [if_pos hx]
      exact ih.cons x
    · rw [if_neg hx]
      exact ih.cons₂ x

theorem eraseRemove_count (child x : Nat) (hx : x ≠ child) (l : List Nat) :
    (eraseRemove child l).count x = l.count x := by
  induction l with
  | nil => rfl
  | cons y ys ih =>
    by_cases hy : y = child
    · rw [eraseRemove, if_pos hy, ih, List.count_cons]
      have : ¬ y = x := by omega
      simp [this]
    · rw [eraseRemove, if_neg hy, List.count_cons, List.count_cons, ih]

theorem eraseRemove_of_not_mem (child : Nat) (l : List Nat)
    (h : child ∉ l) : eraseRemove child l = l := by
  induction l with
  | nil => rfl
  | cons x xs ih =>
    simp only [List.mem_cons, not_or] at h
    rw [eraseRemove, if_neg (Ne.symm h.1), ih h.2]

/-- C8 counterexample: with children `[1, 1]`, `removeChild 1` empties the
list rather than removing only the first entry (which would leave `[1]`). -/
def dupWorld : World := fun i =>
  if i = 0 then { SceneNode.ofName "parent" with children := [1, 1] }
  else SceneNode.ofName "child"

/-- C8 is false as stated: removeChild removes the *later duplicates too*.
On a children list `[1, 1]` the result is `[]`, not the `[1]` the claim
requires. -/
theorem removeChild_first_only_counterexample :
    ((removeChild dupWorld 0 1) 0).children = []
    ∧ ((removeChild dupWorld 0 1) 0).children ≠ [1] := by
  have h0 : ((removeChild dupWorld 0 1) 0).children = [] := rfl
  refine ⟨h0, ?_⟩
  rw [h0]
  simp

/-- C8 (amended): removeChild removes every entry of the children sequence
equal to the given child (erase + std::remove), keeping the relative order of
the rest, and is a no-op when no entry equals the child. -/
theorem removeChild_spec (w : World) (p child : Nat) :
    child ∉ ((removeChild w p child) p).children
    ∧ ((removeChild w p child) p).children.Sublist (w p).children
    ∧ (∀ x, x ≠ child →
        ((removeChild w p child) p).children.count x = ((w p).children).count x)
    ∧ (child ∉ (w p).children →
        ((removeChild w p child) p).children = (w p).children) := by
  have hp : ((removeChild w p child) p).children = eraseRemove child (w p).children := by
    simp [removeChild]
  refine ⟨?_, ?_, ?_, ?_⟩
  · rw [hp]; exact eraseRemove_not_mem child _
  · rw [hp]; exact eraseRemove_sublist child _
  · intro x hx; rw [hp]; exact eraseRemove_count child x hx _
  · intro h; rw [hp]; exact eraseRemove_of_not_mem child _ h

/-- C9: removeChild touches only the parent's children sequence: the removed
child's parent back-reference is untouched (every node's parent field is),
every other node is entirely unchanged, and every field of `p` other than
`children` is unchanged. -/
theorem removeChild_frame (w : World) (p child : Nat) :
    (∀ i, ((removeChild w p child) i).parent = (w i).parent)
    ∧ (∀ i, i ≠ p → (removeChild w p child) i = w i)
    ∧ ((removeChild w p child) p).name = (w p).name
    ∧ ((removeChild w p child) p).transform = (w p).transform
    ∧ ((removeChild w p child) p).boundingBox = (w p).boundingBox
    ∧ ((removeChild w p child) p).lod = (w p).lod
    ∧ ((removeChild w p child) p).visible = (w p).visible := by
  refine ⟨fun i => ?_, fun i hi => ?_, ?_, ?_, ?_, ?_, ?_⟩
  · by_cases h : i = p <;> simp [removeChild, h]
  · simp [removeChild, hi]
  all_goals simp [removeChild]

/-- C10: a freshly constructed SceneNode(name) has visibility true, no
children, no parent, an empty LOD table, an identity transform
(position 0, identity rotation quaternion, scale 1), and the default
bounding box from (-1,-1,-1) to (1,1,1). -/
theorem sceneNode_ctor_defaults (n : String) :
    (SceneNode.ofName n).name = n
    ∧ (SceneNode.ofName n).visible = true
    ∧ (SceneNode.ofName n).children = []
    ∧ (SceneNode.ofName n).parent = none
    ∧ (SceneNode.ofName n).lod = ⟨[]⟩
    ∧ (SceneNode.ofName n).transform.position = ⟨0, 0, 0⟩
    ∧ (SceneNode.ofName n).transform.rotation = ⟨1, 0, 0, 0⟩
    ∧ (SceneNode.ofName n).transform.scale = ⟨1, 1, 1⟩
    ∧ (SceneNode.ofName n).boundingBox = ⟨⟨-1, -1, -1⟩, ⟨1, 1, 1⟩⟩ :=
  ⟨rfl, rfl, rfl, rfl, rfl, rfl, rfl, rfl, rfl⟩

theorem find?_sorted_min {levels : List LODLevel} {d : ℚ} {lvl : LODLevel}
    (hs : lodSorted levels)
    (hf : levels.find? (fun x => decide (d < x.distanceThreshold)) = some lvl) :
    ∀ lvl2 ∈ levels, d < lvl2.distanceThreshold →
      lvl.distanceThreshold ≤ lvl2.distanceThreshold := by
  induction levels with
  | nil => simp at hf
  | cons a t ih =>
    by_cases hd : d < a.distanceThreshold
    · rw [List.find?_cons_of_pos _ (by simpa using hd)] at hf
      obtain rfl : a = lvl := by simpa using hf
      intro lvl2 hmem _
      rcases List.mem_cons.mp hmem with rfl | hmem2
      · exact le_refl _
      · exact (List.pairwise_cons.mp hs).1 lvl2 hmem2
    · rw [List.find?_cons_of_neg _ (by simpa using hd)] at hf
      intro lvl2 hmem h2
      rcases List.mem_cons.mp hmem with rfl | hmem2
      · exact absurd h2 hd
      · exact ih (List.pairwise_cons.mp hs).2 hf lvl2 hmem2 h2

theorem getLast_sorted_max {levels : List LODLevel} (hs : lodSorted levels)
    (h : levels ≠ []) :
    ∃ lvl ∈ levels, levels.getLast? = some lvl
      ∧ ∀ lvl2 ∈ levels, lvl2.distanceThreshold ≤ lvl.distanceThreshold := by
  induction levels with
  | nil => exact absurd rfl h
  | cons a t ih =>
    cases t with
    | nil =>
      refine ⟨a, List.mem_singleton_self a, rfl, ?_⟩
      intro lvl2 hmem
      obtain rfl : lvl2 = a := List.mem_singleton.mp hmem
      exact le_refl _
    | cons b u =>
      obtain ⟨lvl, hmem, hlast, hmax⟩ :=
        ih (List.pairwise_cons.mp hs).2 (by simp)
      refine ⟨lvl, List.mem_cons_of_mem a hmem, ?_, ?_⟩
      · rw [List.getLast?_cons_cons]
        exact hlast
      · intro lvl2 hmem2
        rcases List.mem_cons.mp hmem2 with rfl | h2
        · exact le_trans ((List.pairwise_cons.mp hs).1 lvl hmem) (le_refl _)
        · exact hmax lvl2 h2

/-- C7: on a LOD table sorted ascending by threshold, getMesh(d) returns the
mesh of a minimal-threshold level whose threshold strictly exceeds d; when d
reaches or exceeds every threshold it returns the mesh of a maximal-threshold
level (the last); and on an empty table it returns the empty string. -/
theorem getMesh_spec (l : LOD) (d : ℚ) (hs : lodSorted l.levels) :
    ((∃ lvl ∈ l.levels, d < lvl.distanceThreshold) →
      ∃ lvl ∈ l.levels, l.getMesh d = lvl.meshName ∧ d < lvl.distanceThreshold
        ∧ ∀ lvl2 ∈ l.levels, d < lvl2.distanceThreshold →
            lvl.distanceThreshold ≤ lvl2.distanceThreshold)
    ∧ ((l.levels ≠ [] ∧ ∀ lvl ∈ l.levels, lvl.distanceThreshold ≤ d) →
      ∃ lvl ∈ l.levels, l.getMesh d = lvl.meshName
        ∧ ∀ lvl2 ∈ l.levels, lvl2.distanceThreshold ≤ lvl.distanceThreshold)
    ∧ (l.levels = [] → l.getMesh d = "") := by
  refine ⟨?_, ?_, ?_⟩
  · intro hex
    have hne : l.levels.find? (fun x => decide (d < x.distanceThreshold)) ≠ none := by
      intro hn
      obtain ⟨lvl, hmem, hlt⟩ := hex
      have := List.find?_eq_none.mp hn lvl hmem
      simp [hlt] at this
    obtain ⟨lvl, hf⟩ := Option.ne_none_iff_exists'.mp hne
    refine ⟨lvl, List.mem_of_find?_eq_some hf, ?_, ?_, find?_sorted_min hs hf⟩
    · unfold LOD.getMesh
      rw [hf]
    · have := List.find?_some hf
      simpa using this
  · intro ⟨hne, hall⟩
    have hfn : l.levels.find? (fun x => decide (d < x.distanceThreshold)) = none := by
      rw [List.find?_eq_none]
      intro x hx
      simpa using not_lt.mpr (hall x hx)
    obtain ⟨lvl, hmem, hlast, hmax⟩ := getLast_sorted_max hs hne
    refine ⟨lvl, hmem, ?_, hmax⟩
    unfold LOD.getMesh
    rw [hfn, hlast]
  · intro h
    unfold LOD.getMesh
    rw [h]
    rfl

/-- A concrete three-level LOD table for the C7 witness. -/
def lodTable : LOD := ⟨[⟨10, "high"⟩, ⟨20, "mid"⟩, ⟨30, "low"⟩]⟩

/-- Witness for C7: the sortedness hypothesis holds for the concrete table
and the selection property follows at distance 15. -/
theorem getMesh_spec_witness :
    lodSorted lodTable.levels
    ∧ (((∃ lvl ∈ lodTable.levels, (15 : ℚ) < lvl.distanceThreshold) →
      ∃ lvl ∈ lodTable.levels, lodTable.getMesh 15 = lvl.meshName
        ∧ (15 : ℚ) < lvl.distanceThreshold
        ∧ ∀ lvl2 ∈ lodTable.levels, (15 : ℚ) < lvl2.distanceThreshold →
            lvl.distanceThreshold ≤ lvl2.distanceThreshold)
    ∧ ((lodTable.levels ≠ [] ∧ ∀ lvl ∈ lodTable.levels, lvl.distanceThreshold ≤ (15 : ℚ)) →
      ∃ lvl ∈ lodTable.levels, lodTable.getMesh 15 = lvl.meshName
        ∧ ∀ lvl2 ∈ lodTable.levels, lvl2.distanceThreshold ≤ lvl.distanceThreshold)
    ∧ (lodTable.levels = [] → lodTable.getMesh 15 = "")) :=
  ⟨by decide, getMesh_spec lodTable 15 (by decide)⟩

/-- glm::row(m, i) as a Vec4. -/
def glmRow (m : Mat4) (i : Fin 4) : Vec4 :=
  ⟨m i 0, m i 1, m i 2, m i 3⟩

def Vec4.add (a b : Vec4) : Vec4 :=
  ⟨a.x + b.x, a.y + b.y, a.z + b.z, a.w + b.w⟩

def Vec4.sub (a b : Vec4) : Vec4 :=
  ⟨a.x - b.x, a.y - b.y, a.z - b.z, a.w - b.w⟩

/-- The largest k with k * k ≤ n (a structural implementation of the
natural square root, so that concrete instances reduce inside the kernel). -/
def natSqrt (n : Nat) : Nat :=
  (((List.range (n + 1)).filter (fun k => decide (k * k ≤ n))).getLast?).getD 0

/-- Rational square root taken componentwise on numerator and denominator;
it is the exact square root whenever the argument is a perfect rational
square. -/
def ratSqrt (q : ℚ) : ℚ :=
  mkRat (natSqrt q.num.toNat) (natSqrt q.den)

/-- glm::length(glm::vec3(p)): the euclidean norm of the xyz part.  The
float square root is modelled by the exact rational square root `ratSqrt`,
which coincides with it whenever the radicand is a perfect rational square
(in particular for the identity projection-view matrix used below). -/
def vec3Length (p : Vec4) : ℚ :=
  ratSqrt (p.x * p.x + p.y * p.y + p.z * p.z)

/-- `p /= glm::length(glm::vec3(p))`: divide the full 4-vector by the
3-component norm. -/
def normalizePlane (p : Vec4) : Vec4 :=
  ⟨p.x / vec3Length p, p.y / vec3Length p, p.z / vec3Length p, p.w / vec3Length p⟩

/-- FrustumCuller::extractPlanes: the six row combinations row3 ± row0/1/2,
each then normalized. -/
def extractPlanes (m : Mat4) : List Vec4 :=
  [(glmRow m 3).add (glmRow m 0), (glmRow m 3).sub (glmRow m 0),
   (glmRow m 3).add (glmRow m 1), (glmRow m 3).sub (glmRow m 1),
   (glmRow m 3).add (glmRow m 2), (glmRow m 3).sub (glmRow m 2)].map normalizePlane

/-- class FrustumCuller: six clip planes. -/
structure FrustumCuller where
  planes : List Vec4

/-- FrustumCuller's constructor: extract the planes of the projection-view
matrix. -/
def FrustumCuller.ofMatrix (projView : Mat4) : FrustumCuller :=
  ⟨extractPlanes projView⟩

/-- The eight local-space bounding-box corners, in the source's order. -/
def corners (bb : BoundingBox) : List Vec3 :=
  [⟨bb.min.x, bb.min.y, bb.min.z⟩, ⟨bb.max.x, bb.min.y, bb.min.z⟩,
   ⟨bb.min.x, bb.max.y, bb.min.z⟩, ⟨bb.max.x, bb.max.y, bb.min.z⟩,
   ⟨bb.min.x, bb.min.y, bb.max.z⟩, ⟨bb.max.x, bb.min.y, bb.max.z⟩,
   ⟨bb.min.x, bb.max.y, bb.max.z⟩, ⟨bb.max.x, bb.max.y, bb.max.z⟩]

/-- `wm * vec4(p, 1.0f)`. -/
def mulPoint (m : Mat4) (p : Vec3) : Vec4 :=
  ⟨m 0 0 * p.x + m 0 1 * p.y + m 0 2 * p.z + m 0 3,
   m 1 0 * p.x + m 1 1 * p.y + m 1 2 * p.z + m 1 3,
   m 2 0 * p.x + m 2 1 * p.y + m 2 2 * p.z + m 2 3,
   m 3 0 * p.x + m 3 1 * p.y + m 3 2 * p.z + m 3 3⟩

/-- `glm::dot(glm::vec3(plane), glm::vec3(wp)) + plane.w`: the signed
distance of the transformed corner from the plane. -/
def planeDist (plane : Vec4) (wp : Vec4) : ℚ :=
  plane.x * wp.x + plane.y * wp.y + plane.z * wp.z + plane.w

/-- The per-plane loop of isVisible: count the corners strictly on the
negative side; if all 8 fail a plane, the node is not visible; otherwise
carry on to the next plane. -/
def cullLoop (wm : Mat4) (bb : BoundingBox) : List Vec4 → Bool
  | [] => true
  | plane :: rest =>
    if ((corners bb).filter
          (fun p => decide (planeDist plane (mulPoint wm p) < 0))).length = 8
    then false
    else cullLoop wm bb rest

/-- FrustumCuller::isVisible: compute the node's world matrix, test its box
corners against the six planes, store the verdict in the node's visible flag
and return it.  `fuel` bounds the getWorldMatrix recursion as above. -/
def FrustumCuller.isVisible (fc : FrustumCuller) (fuel : Nat) (w : World)
    (i : Nat) : Bool × World :=
  let wm := getWorldMatrix w fuel i
  let b := cullLoop wm (w i).boundingBox fc.planes
  (b, fun j => if j = i then { w j with visible := b } else w j)

theorem cullLoop_false_iff (wm : Mat4) (bb : BoundingBox) (planes : List Vec4) :
    cullLoop wm bb planes = false
      ↔ ∃ plane ∈ planes, ∀ p ∈ corners bb, planeDist plane (mulPoint wm p) < 0 := by
  have hc : (corners bb).length = 8 := rfl
  induction planes with
  | nil => simp [cullLoop]
  | cons plane rest ih =>
    rw [cullLoop]
    by_cases h : ((corners bb).filter
        (fun p => decide (planeDist plane (mulPoint wm p) < 0))).length = 8
    · rw [if_pos h]
      have hall : ∀ p ∈ corners bb, planeDist plane (mulPoint wm p) < 0 := by
        intro p hp
        have h8 := List.filter_length_eq_length.mp (h.trans hc.symm) p hp
        simpa using h8
      exact iff_of_true rfl ⟨plane, List.mem_cons_self _ _, hall⟩
    · rw [if_neg h]
      constructor
      · intro hfalse
        obtain ⟨pl, hmem, hall⟩ := ih.mp hfalse
        exact ⟨pl, List.mem_cons_of_mem _ hmem, hall⟩
      · rintro ⟨pl, hmem, hall⟩
        rcases List.mem_cons.mp hmem with rfl | hmem2
        · exact absurd
            ((List.filter_length_eq_length.mpr
              (fun p hp => by simpa using hall p hp)).trans hc) h
        · exact ih.mpr ⟨pl, hmem2, hall⟩

/-- C3: isVisible returns false exactly when some one of the six planes has
all eight world-transformed bounding-box corners strictly on its negative
side (signed distance < 0), it records the verdict in the node's visible
flag, and for the default node at the origin with the unit box and a culler
built from the identity projection-view matrix it returns true. -/
theorem isVisible_spec (fc : FrustumCuller) (fuel : Nat) (w : World) (i : Nat) :
    ((fc.isVisible fuel w i).1 = false
      ↔ ∃ plane ∈ fc.planes, ∀ p ∈ corners (w i).boundingBox,
          planeDist plane (mulPoint (getWorldMatrix w fuel i) p) < 0)
    ∧ ((fc.isVisible fuel w i).2 i).visible = (fc.isVisible fuel w i).1
    ∧ ((FrustumCuller.ofMatrix idMat4).isVisible 1
        (fun _ => SceneNode.ofName "origin") 0).1 = true := by
  refine ⟨?_, ?_, ?_⟩
  · exact cullLoop_false_iff _ _ _
  · simp [FrustumCuller.isVisible]
  · have hsq : ratSqrt 1 = 1 := rfl
    have r0 : glmRow idMat4 0 = ⟨1,0,0,0⟩ := rfl
    have r1 : glmRow idMat4 1 = ⟨0,1,0,0⟩ := rfl
    have r2 : glmRow idMat4 2 = ⟨0,0,1,0⟩ := rfl
    have r3 : glmRow idMat4 3 = ⟨0,0,0,1⟩ := rfl
    have hplanes : (FrustumCuller.ofMatrix idMat4).planes
        = [⟨1,0,0,1⟩, ⟨-1,0,0,1⟩, ⟨0,1,0,1⟩, ⟨0,-1,0,1⟩, ⟨0,0,1,1⟩, ⟨0,0,-1,1⟩] := by
      simp only [FrustumCuller.ofMatrix, extractPlanes, r0, r1, r2, r3, List.map]
      norm_num [Vec4.add, Vec4.sub, normalizePlane, vec3Length, hsq]
    have htrs : Transform.init.trs = idMat4 := by
      ext i j
      fin_cases i <;> fin_cases j <;>
        simp [Transform.trs, Transform.init, glmTranslate, glmScale, mat4_cast, idMat4,
          Matrix.mul_apply, Fin.sum_univ_four]
    have hwm : getWorldMatrix (fun _ => SceneNode.ofName "origin") 1 0 = idMat4 := by
      show Transform.init.getMatrixVal = idMat4
      show Transform.init.trs = idMat4
      exact htrs
    have hmul : ∀ p : Vec3, mulPoint idMat4 p = ⟨p.x, p.y, p.z, 1⟩ := by
      intro p
      have e00 : (idMat4 0 0 : ℚ) = 1 := rfl
      have e01 : (idMat4 0 1 : ℚ) = 0 := rfl
      have e02 : (idMat4 0 2 : ℚ) = 0 := rfl
      have e03 : (idMat4 0 3 : ℚ) = 0 := rfl
      have e10 : (idMat4 1 0 : ℚ) = 0 := rfl
      have e11 : (idMat4 1 1 : ℚ) = 1 := rfl
      have e12 : (idMat4 1 2 : ℚ) = 0 := rfl
      have e13 : (idMat4 1 3 : ℚ) = 0 := rfl
      have e20 : (idMat4 2 0 : ℚ) = 0 := rfl
      have e21 : (idMat4 2 1 : ℚ) = 0 := rfl
      have e22 : (idMat4 2 2 : ℚ) = 1 := rfl
      have e23 : (idMat4 2 3 : ℚ) = 0 := rfl
      have e30 : (idMat4 3 0 : ℚ) = 0 := rfl
      have e31 : (idMat4 3 1 : ℚ) = 0 := rfl
      have e32 : (idMat4 3 2 : ℚ) = 0 := rfl
      have e33 : (idMat4 3 3 : ℚ) = 1 := rfl
      simp only [mulPoint, e00, e01, e02, e03, e10, e11, e12, e13,
        e20, e21, e22, e23, e30, e31, e32, e33]
      simp only [Vec4.mk.injEq]
      refine ⟨?_, ?_, ?_, ?_⟩ <;> ring
    show cullLoop (getWorldMatrix (fun _ => SceneNode.ofName "origin") 1 0)
        ((fun _ => SceneNode.ofName "origin") 0 : SceneNode).boundingBox
        (FrustumCuller.ofMatrix idMat4).planes = true
    rw [hwm, hplanes]
    show cullLoop idMat4 ⟨⟨-1,-1,-1⟩,⟨1,1,1⟩⟩ _ = true
    norm_num [cullLoop, corners, hmul, planeDist, List.filter]

/-- A whitespace-delimited token of the serialized text: a word or a numeric
literal (numeric text is modelled by its exact rational value; indentation
and line breaks carry no information for the parser and are dropped). -/
inductive Tok where
  | str (s : String)
  | num (q : ℚ)
deriving DecidableEq, Repr

/-- The tree-of-owned-children view of a SceneNode that serializeNode reads
and deserialize rebuilds: name, the three transform components, the LOD
table, the bounding box and the ordered child subtrees.  The visibility flag
and the cached matrix are not part of the format. -/
inductive SNodeT where
  | mk (name : String) (position : Vec3) (rotation : Quat) (scale : Vec3)
      (lod : LOD) (bbox : BoundingBox) (children : List SNodeT)

def SNodeT.name : SNodeT → String
  | ⟨n, _, _, _, _, _, _⟩ => n

def SNodeT.position : SNodeT → Vec3
  | ⟨_, p, _, _, _, _, _⟩ => p

def SNodeT.rotation : SNodeT → Quat
  | ⟨_, _, r, _, _, _, _⟩ => r

def SNodeT.scaleOf : SNodeT → Vec3
  | ⟨_, _, _, s, _, _, _⟩ => s

def SNodeT.lod : SNodeT → LOD
  | ⟨_, _, _, _, l, _, _⟩ => l

def SNodeT.bbox : SNodeT → BoundingBox
  | ⟨_, _, _, _, _, b, _⟩ => b

def SNodeT.children : SNodeT → List SNodeT
  | ⟨_, _, _, _, _, _, c⟩ => c

/-- The `<distance> <meshName>` token pairs of the LOD section, in order. -/
def serializeLevels : List LODLevel → List Tok
  | [] => []
  | l :: ls => Tok.num l.distanceThreshold :: Tok.str l.meshName :: serializeLevels ls

mutual

/-- Serializer::serializeNode: the token stream written by the pre-order
walk. -/
def serializeNode : SNodeT → List Tok
  | ⟨n, p, r, s, lod, bb, cs⟩ =>
    Tok.str "Node" :: Tok.str n ::
    Tok.str "Position" :: Tok.num p.x :: Tok.num p.y :: Tok.num p.z ::
    Tok.str "Rotation" :: Tok.num r.x :: Tok.num r.y :: Tok.num r.z :: Tok.num r.w ::
    Tok.str "Scale" :: Tok.num s.x :: Tok.num s.y :: Tok.num s.z ::
    Tok.str "LODLevels" :: Tok.num (lod.levels.length : ℚ) ::
    (serializeLevels lod.levels ++
      Tok.str "BoundingBox" :: Tok.num bb.min.x :: Tok.num bb.min.y :: Tok.num bb.min.z ::
      Tok.num bb.max.x :: Tok.num bb.max.y :: Tok.num bb.max.z ::
      Tok.str "Children" :: Tok.num (cs.length : ℚ) :: serializeKids cs)

/-- The children loop of serializeNode. -/
def serializeKids : List SNodeT → List Tok
  | [] => []
  | c :: cs => serializeNode c ++ serializeKids cs

end

/-- The parser's input state: remaining tokens plus the stream's fail flag
(once set, every further extraction no-ops, as for an istream). -/
structure PStream where
  toks : List Tok
  fail : Bool
deriving DecidableEq, Repr

/-- The text a token yields when extracted into a std::string. -/
def Tok.text : Tok → String
  | .str s => s
  | .num q => toString q

/-- `is >> tok` into a std::string: the next token's text, or no result
(entering the failed state) at end of input or on an already-failed
stream. -/
def readStr (st : PStream) : Option String × PStream :=
  if st.fail then (none, st)
  else
    match st.toks with
    | [] => (none, { st with fail := true })
    | t :: ts => (some t.text, { st with toks := ts })

/-- `is >> x` into a float: a numeric token yields its value; a word or end
of input fails the extraction, which (since C++11) stores 0 and puts the
stream into the failed state. -/
def readNum (st : PStream) : ℚ × PStream :=
  if st.fail then (0, st)
  else
    match st.toks with
    | [] => (0, { st with fail := true })
    | .num q :: ts => (q, { st with toks := ts })
    | .str _ :: _ => (0, { st with fail := true })

/-- `is >> n` into an int (the two counts); the writer only ever produces
nonnegative integers here. -/
def readInt (st : PStream) : Int × PStream :=
  ((readNum st).1.floor, (readNum st).2)

/-- The `for (i = 0; i < lodCount; ++i) { is >> d >> m; }` loop. -/
def readPairs : Nat → PStream → List (ℚ × String) × PStream
  | 0, st => ([], st)
  | n + 1, st =>
    let (d, st1) := readNum st
    let (m, st2) := readStr st1
    let (rest, st3) := readPairs n st2
    ((d, m.getD "") :: rest, st3)

/-- The `for (i = 0; i < childCount; ++i)` loop of the parser: run the child
parser and keep the successfully parsed children
(`if (c) node->addChild(c)`). -/
def readKids (p : PStream → Option SNodeT × PStream) :
    Nat → PStream → List SNodeT × PStream
  | 0, st => ([], st)
  | n + 1, st =>
    let (c, st1) := p st
    let (rest, st2) := readKids p n st1
    (match c with
     | some node => node :: rest
     | none => rest, st2)

/-- `is >> px >> py >> pz`: three float extractions making up a vec3. -/
def readVec3 (st : PStream) : Vec3 × PStream :=
  let (x, st1) := readNum st
  let (y, st2) := readNum st1
  let (z, st3) := readNum st2
  (⟨x, y, z⟩, st3)

/-- `is >> rx >> ry >> rz >> rw` followed by `setRotation({rw, rx, ry, rz})`:
the four floats are read in the written (x, y, z, w) token order and handed
to the quaternion constructor with rw first — glm's (w, x, y, z) parameter
order — so each written component returns to its own slot. -/
def readQuat (st : PStream) : Quat × PStream :=
  let (rx, st1) := readNum st
  let (ry, st2) := readNum st1
  let (rz, st3) := readNum st2
  let (rw, st4) := readNum st3
  (⟨rw, rx, ry, rz⟩, st4)

/-- The LODLevels section of the parse: skip the keyword token, read the
count, read that many (distance, mesh) pairs and rebuild the table through
addLevel. -/
def parseLod (st : PStream) : LOD × PStream :=
  let (_, st1) := readStr st
  let (lodCount, st2) := readInt st1
  let (pairs, st3) := readPairs lodCount.toNat st2
  (pairs.foldl (fun acc pr => acc.addLevel pr.1 pr.2) ⟨[]⟩, st3)

/-- The BoundingBox section: skip the keyword token and read the six
corner floats. -/
def parseBBox (st : PStream) : BoundingBox × PStream :=
  let (_, st1) := readStr st
  let (mn, st2) := readVec3 st1
  let (mx, st3) := readVec3 st2
  (⟨mn, mx⟩, st3)

/-- The Children section: skip the keyword token, read the count and run the
child loop. -/
def parseKidsSec (p : PStream → Option SNodeT × PStream) (st : PStream) :
    List SNodeT × PStream :=
  let (_, st1) := readStr st
  let (childCount, st2) := readInt st1
  readKids p childCount.toNat st2

/-- One level of the recursive lambda `deser` of Serializer::deserialize,
parameterized by the parser `pc` used for the child subtrees; the extraction
sequence is grouped into the helpers above (same reads, same order).  Only
the leading "Node" token is checked; every later extraction is unchecked, so
after an input error the remaining reads yield defaults (0 and the empty
string) and a node is still returned. -/
def deserStep (pc : PStream → Option SNodeT × PStream) (st : PStream) :
    Option SNodeT × PStream :=
  match readStr st with
  | (none, st1) => (none, st1)
  | (some tok, st1) =>
    if tok ≠ "Node" then (none, st1)
    else
      let a1 := readStr st1
      let a2 := readStr a1.2
      let a3 := readVec3 a2.2
      let a4 := readStr a3.2
      let a5 := readQuat a4.2
      let a6 := readStr a5.2
      let a7 := readVec3 a6.2
      let a8 := parseLod a7.2
      let a9 := parseBBox a8.2
      let a10 := parseKidsSec pc a9.2
      (some ⟨a1.1.getD "", a3.1, a5.1, a7.1, a8.1, a9.1, a10.1⟩, a10.2)

/-- The recursive descent itself: each nesting level runs one deserStep,
with `fuel` bounding the recursion depth. -/
def deser : Nat → PStream → Option SNodeT × PStream
  | 0, st => (none, st)
  | fuel + 1, st => deserStep (fun st2 => deser fuel st2) st

/-- Serializer::deserialize on a token stream (the file-open check aside):
one run of the recursive parser, with the recursion depth bounded by the
input length, which a successful parse can never exhaust. -/
def deserialize (toks : List Tok) : Option SNodeT :=
  (deser (toks.length + 1) ⟨toks, false⟩).1

mutual

/-- Well-formedness for the round trip: every LOD table in the tree is
sorted ascending by threshold — the invariant addLevel maintains, since it
is the table's only writer. -/
def wfT : SNodeT → Bool
  | ⟨_, _, _, _, lod, _, cs⟩ => decide (lodSorted lod.levels) && wfKids cs

def wfKids : List SNodeT → Bool
  | [] => true
  | c :: cs => wfT c && wfKids cs

end

mutual

/-- Nesting depth of a tree (a leaf has depth 1). -/
def depthT : SNodeT → Nat
  | ⟨_, _, _, _, _, _, cs⟩ => depthKids cs + 1

def depthKids : List SNodeT → Nat
  | [] => 0
  | c :: cs => max (depthT c) (depthKids cs)

end

theorem sortLevels_sorted_id {l : List LODLevel} (h : lodSorted l) :
    sortLevels l = l := by
  induction l with
  | nil => rfl
  | cons a t ih =>
    have ht : lodSorted t := (List.pairwise_cons.mp h).2
    show insertLevel a (sortLevels t) = a :: t
    rw [ih ht]
    cases t with
    | nil => rfl
    | cons b u =>
      have hab : a.distanceThreshold ≤ b.distanceThreshold :=
        (List.pairwise_cons.mp h).1 b (List.mem_cons_self _ _)
      rw [insertLevel, if_pos hab]

theorem lodSorted_append_snoc {acc : List LODLevel} {x : LODLevel}
    {L : List LODLevel} (h : lodSorted (acc ++ x :: L)) :
    lodSorted (acc ++ [x]) := by
  rw [lodSorted, List.pairwise_append] at h ⊢
  obtain ⟨h1, h2, h3⟩ := h
  refine ⟨h1, List.pairwise_singleton _ _, ?_⟩
  intro a ha b hb
  have hbx : b = x := List.mem_singleton.mp hb
  rw [hbx]
  exact h3 a ha x (List.mem_cons_self _ _)

theorem foldl_addLevel_sorted :
    ∀ (L : List LODLevel) (acc : LOD), lodSorted (acc.levels ++ L) →
      L.foldl (fun a l => a.addLevel l.distanceThreshold l.meshName) acc
        = ⟨acc.levels ++ L⟩ := by
  intro L
  induction L with
  | nil =>
    intro acc _
    rw [List.append_nil]
    rfl
  | cons x t ih2 =>
    intro acc h
    obtain ⟨lv⟩ := acc
    show t.foldl _ (LOD.addLevel ⟨lv⟩ x.distanceThreshold x.meshName) = _
    have hstep : LOD.addLevel ⟨lv⟩ x.distanceThreshold x.meshName = ⟨lv ++ [x]⟩ := by
      show LOD.mk (sortLevels (lv ++ [x])) = ⟨lv ++ [x]⟩
      rw [sortLevels_sorted_id (lodSorted_append_snoc h)]
    rw [hstep, ih2 ⟨lv ++ [x]⟩ (by simpa [List.append_assoc] using h)]
    simp

theorem readStr_str (s2 : String) (ts : List Tok) :
    readStr ⟨Tok.str s2 :: ts, false⟩ = (some s2, ⟨ts, false⟩) := rfl

theorem readNum_num (q : ℚ) (ts : List Tok) :
    readNum ⟨Tok.num q :: ts, false⟩ = (q, ⟨ts, false⟩) := rfl

theorem readInt_nat (n : Nat) (ts : List Tok) :
    readInt ⟨Tok.num (n : ℚ) :: ts, false⟩ = ((n : Int), ⟨ts, false⟩) := rfl

theorem readPairs_serializeLevels (L : List LODLevel) (rest : List Tok) :
    readPairs L.length ⟨serializeLevels L ++ rest, false⟩
      = (L.map (fun l => (l.distanceThreshold, l.meshName)), ⟨rest, false⟩) := by
  induction L with
  | nil => rfl
  | cons l ls ih =>
    show readPairs (ls.length + 1)
        ⟨Tok.num l.distanceThreshold :: Tok.str l.meshName ::
          (serializeLevels ls ++ rest), false⟩ = _
    rw [readPairs]
    simp only [readNum_num, readStr_str, ih]
    rfl

theorem readKids_serializeKids (p : PStream → Option SNodeT × PStream)
    (cs : List SNodeT)
    (hp : ∀ c ∈ cs, ∀ rest : List Tok,
      p ⟨serializeNode c ++ rest, false⟩ = (some c, ⟨rest, false⟩)) :
    ∀ rest : List Tok, readKids p cs.length ⟨serializeKids cs ++ rest, false⟩
      = (cs, ⟨rest, false⟩) := by
  induction cs with
  | nil => intro rest; rfl
  | cons c cs2 ih =>
    intro rest
    show readKids p (cs2.length + 1)
        ⟨(serializeNode c ++ serializeKids cs2) ++ rest, false⟩ = _
    rw [readKids, List.append_assoc,
      hp c (List.mem_cons_self _ _) (serializeKids cs2 ++ rest)]
    simp only [ih (fun c2 hc2 => hp c2 (List.mem_cons_of_mem _ hc2))]

theorem readVec3_nums (a b c : ℚ) (ts : List Tok) :
    readVec3 ⟨Tok.num a :: Tok.num b :: Tok.num c :: ts, false⟩
      = (⟨a, b, c⟩, ⟨ts, false⟩) := rfl

theorem readQuat_nums (a b c d : ℚ) (ts : List Tok) :
    readQuat ⟨Tok.num a :: Tok.num b :: Tok.num c :: Tok.num d :: ts, false⟩
      = (⟨d, a, b, c⟩, ⟨ts, false⟩) := rfl

theorem parseBBox_serialized (bb : BoundingBox) (ts : List Tok) :
    parseBBox ⟨Tok.str "BoundingBox" :: Tok.num bb.min.x :: Tok.num bb.min.y ::
        Tok.num bb.min.z :: Tok.num bb.max.x :: Tok.num bb.max.y ::
        Tok.num bb.max.z :: ts, false⟩
      = (bb, ⟨ts, false⟩) := rfl

theorem parseLod_serialized (lv : List LODLevel) (hs : lodSorted lv)
    (ts : List Tok) :
    parseLod ⟨Tok.str "LODLevels" :: Tok.num (lv.length : ℚ) ::
        (serializeLevels lv ++ ts), false⟩
      = (⟨lv⟩, ⟨ts, false⟩) := by
  rw [parseLod]
  simp only [readStr_str, readInt_nat, Int.toNat_natCast, readPairs_serializeLevels]
  rw [List.foldl_map]
  have h2 := foldl_addLevel_sorted lv ⟨[]⟩ (by simpa using hs)
  simpa using h2

theorem parseKidsSec_serialized (p : PStream → Option SNodeT × PStream)
    (cs : List SNodeT)
    (hp : ∀ c ∈ cs, ∀ rest : List Tok,
      p ⟨serializeNode c ++ rest, false⟩ = (some c, ⟨rest, false⟩))
    (ts : List Tok) :
    parseKidsSec p ⟨Tok.str "Children" :: Tok.num (cs.length : ℚ) ::
        (serializeKids cs ++ ts), false⟩
      = (cs, ⟨ts, false⟩) := by
  rw [parseKidsSec]
  simp only [readStr_str, readInt_nat, Int.toNat_natCast]
  exact readKids_serializeKids p cs hp ts

set_option maxHeartbeats 2000000 in
theorem deser_succ_serializeNode (fuel : Nat) (t : SNodeT) (rest : List Tok)
    (hwf : wfT t = true)
    (hkids : ∀ c ∈ t.children, ∀ rest2 : List Tok,
      deser fuel ⟨serializeNode c ++ rest2, false⟩ = (some c, ⟨rest2, false⟩)) :
    deser (fuel + 1) ⟨serializeNode t ++ rest, false⟩ = (some t, ⟨rest, false⟩) := by
  obtain ⟨n, p, r, s, lod, bb, cs⟩ := t
  rw [wfT, Bool.and_eq_true, decide_eq_true_eq] at hwf
  obtain ⟨hsorted, _⟩ := hwf
  obtain ⟨lv⟩ := lod
  rw [deser, deserStep]
  simp only [serializeNode, List.cons_append, List.append_assoc, readStr_str,
    readVec3_nums, readQuat_nums,
    parseLod_serialized lv hsorted,
    parseBBox_serialized bb,
    parseKidsSec_serialized (deser fuel) cs
      (by simpa [SNodeT.children] using hkids),
    Option.getD_some, ne_eq]
  rw [if_neg (by simp)]

theorem wfKids_mem : ∀ {cs : List SNodeT}, wfKids cs = true →
    ∀ c ∈ cs, wfT c = true := by
  intro cs
  induction cs with
  | nil => intro _ c hc; simp at hc
  | cons c2 cs2 ih =>
    intro h c hc
    rw [wfKids, Bool.and_eq_true] at h
    rcases List.mem_cons.mp hc with rfl | hc2
    · exact h.1
    · exact ih h.2 c hc2

theorem depthT_pos : ∀ t : SNodeT, 1 ≤ depthT t := by
  intro t
  obtain ⟨n, p, r, s, lod, bb, cs⟩ := t
  rw [depthT]
  omega

theorem depthKids_mem : ∀ {cs : List SNodeT}, ∀ c ∈ cs, depthT c ≤ depthKids cs := by
  intro cs
  induction cs with
  | nil => intro c hc; simp at hc
  | cons c2 cs2 ih =>
    intro c hc
    rw [depthKids]
    rcases List.mem_cons.mp hc with rfl | hc2
    · exact le_max_left _ _
    · exact le_trans (ih c hc2) (le_max_right _ _)

theorem wfT_children {t : SNodeT} (h : wfT t = true) :
    ∀ c ∈ t.children, wfT c = true := by
  obtain ⟨n, p, r, s, lod, bb, cs⟩ := t
  rw [wfT, Bool.and_eq_true] at h
  exact wfKids_mem h.2

theorem depthT_children {t : SNodeT} :
    ∀ c ∈ t.children, depthT c + 1 ≤ depthT t := by
  obtain ⟨n, p, r, s, lod, bb, cs⟩ := t
  intro c hc
  rw [SNodeT.children] at hc
  show depthT c + 1 ≤ depthKids cs + 1
  have := depthKids_mem c hc
  omega

theorem deser_serializeNode : ∀ (fuel : Nat) (t : SNodeT) (rest : List Tok),
    wfT t = true → depthT t ≤ fuel + 1 →
    deser (fuel + 1) ⟨serializeNode t ++ rest, false⟩ = (some t, ⟨rest, false⟩) := by
  intro fuel
  induction fuel with
  | zero =>
    intro t rest hwf hd
    refine deser_succ_serializeNode 0 t rest hwf ?_
    intro c hc rest2
    exfalso
    have h1 := depthT_children c hc
    have h2 := depthT_pos c
    omega
  | succ fuel ih =>
    intro t rest hwf hd
    refine deser_succ_serializeNode (fuel + 1) t rest hwf ?_
    intro c hc rest2
    have h1 := depthT_children c hc
    exact ih c rest2 (wfT_children hwf c hc) (by omega)

mutual

theorem depthT_le_length : ∀ t : SNodeT, depthT t ≤ (serializeNode t).length
  | ⟨n, p, r, s, lod, bb, cs⟩ => by
    rw [depthT, serializeNode]
    have h := depthKids_le_length cs
    simp only [List.length_cons, List.length_append]
    omega

theorem depthKids_le_length : ∀ cs : List SNodeT,
    depthKids cs ≤ (serializeKids cs).length
  | [] => by rw [depthKids]; omega
  | c :: cs2 => by
    rw [depthKids, serializeKids]
    have h1 := depthT_le_length c
    have h2 := depthKids_le_length cs2
    simp only [List.length_append]
    omega

end

/-- C4: deserializing the serialization of a well-formed tree (one whose LOD
tables are sorted ascending — the invariant addLevel, their only writer,
maintains) reproduces an equal tree: same names, same transform component
values, same bounding boxes, same LOD tables, same children in the same
order. -/
theorem serialize_roundtrip (t : SNodeT) (h : wfT t = true) :
    deserialize (serializeNode t) = some t := by
  have hlen := depthT_le_length t
  rw [deserialize]
  have h2 := deser_serializeNode ((serializeNode t).length) t [] h (by omega)
  rw [List.append_nil] at h2
  rw [h2]

/-- A concrete two-node tree with a two-level LOD table. -/
def sampleTree : SNodeT :=
  ⟨"root", ⟨1, 2, 3⟩, ⟨1, 0, 0, 0⟩, ⟨1, 1, 1⟩, ⟨[⟨5, "near"⟩, ⟨9, "far"⟩]⟩,
    ⟨⟨-1, -1, -1⟩, ⟨1, 1, 1⟩⟩,
    [⟨"kid", ⟨4, 5, 6⟩, ⟨0, 1, 0, 0⟩, ⟨2, 2, 2⟩, ⟨[]⟩,
      ⟨⟨-1, -1, -1⟩, ⟨1, 1, 1⟩⟩, []⟩]⟩

/-- Witness for C4 on the concrete sample tree. -/
theorem serialize_roundtrip_witness :
    wfT sampleTree = true
    ∧ deserialize (serializeNode sampleTree) = some sampleTree :=
  ⟨by decide, serialize_roundtrip sampleTree (by decide)⟩

/-- A single node carrying rotation q. -/
def rotNode (q : Quat) : SNodeT :=
  ⟨"n", ⟨0, 0, 0⟩, q, ⟨1, 1, 1⟩, ⟨[]⟩, ⟨⟨-1, -1, -1⟩, ⟨1, 1, 1⟩⟩, []⟩

/-- C5 (amended): the writer emits the rotation as (x, y, z, w) and the
reader feeds the four tokens back as {rw, rx, ry, rz} to the quaternion
constructor, whose glm parameter order is (w, x, y, z) — so every component
returns to its own slot and the stored rotation equals the written one for
every quaternion; there is no writer/reader order mismatch. -/
theorem rotation_roundtrip (q : Quat) :
    deserialize (serializeNode (rotNode q)) = some (rotNode q)
    ∧ (deserialize (serializeNode (rotNode q))).map SNodeT.rotation = some q := by
  have h2 := deser_serializeNode ((serializeNode (rotNode q)).length) (rotNode q) []
    (by rfl) (by have h1 : depthT (rotNode q) = 1 := rfl; omega)
  rw [List.append_nil] at h2
  have h3 : deserialize (serializeNode (rotNode q)) = some (rotNode q) := by
    rw [deserialize, h2]
  exact ⟨h3, by rw [h3]; rfl⟩

/-- C5 counterexample: the claim asserts that for a quaternion with distinct
component values the stored rotation differs after write-then-read; for
(w, x, y, z) = (4, 1, 2, 3), all distinct, the stored rotation instead equals
the written one exactly. -/
theorem rotation_roundtrip_counterexample :
    (deserialize (serializeNode (rotNode ⟨4, 1, 2, 3⟩))).map SNodeT.rotation
      = some (⟨4, 1, 2, 3⟩ : Quat)
    ∧ (⟨4, 1, 2, 3⟩ : Quat).w ≠ (⟨4, 1, 2, 3⟩ : Quat).x
    ∧ (⟨4, 1, 2, 3⟩ : Quat).x ≠ (⟨4, 1, 2, 3⟩ : Quat).y
    ∧ (⟨4, 1, 2, 3⟩ : Quat).y ≠ (⟨4, 1, 2, 3⟩ : Quat).z := by
  refine ⟨rfl, ?_, ?_, ?_⟩ <;> decide

/-- C6 (amended): the parser returns no node exactly when its first token
read fails (empty input) or yields something other than "Node"; after the
leading "Node" is consumed, a node is always returned, with any fields past
a malformed or truncated point filled by the failed extractions' defaults —
the partially populated node is kept, not discarded. -/
theorem deserialize_failure_behavior :
    deserialize [] = none
    ∧ (∀ s2 : String, ∀ ts : List Tok, s2 ≠ "Node" →
        deserialize (Tok.str s2 :: ts) = none)
    ∧ (∀ ts : List Tok, ∃ node, deserialize (Tok.str "Node" :: ts) = some node) := by
  refine ⟨rfl, ?_, ?_⟩
  · intro s2 ts h
    show (deser ((Tok.str s2 :: ts).length + 1) ⟨Tok.str s2 :: ts, false⟩).1 = none
    rw [show (Tok.str s2 :: ts).length + 1 = ts.length + 1 + 1 from rfl, deser, deserStep]
    simp only [readStr_str]
    rw [if_pos h]
  · intro ts
    show ∃ node, (deser ((Tok.str "Node" :: ts).length + 1)
        ⟨Tok.str "Node" :: ts, false⟩).1 = some node
    rw [show (Tok.str "Node" :: ts).length + 1 = ts.length + 1 + 1 from rfl, deser, deserStep]
    simp only [readStr_str]
    rw [if_neg (by simp)]
    exact ⟨_, rfl⟩

/-- C6 counterexample: the truncated input "Node A" (everything after the
name missing) does not fail: the parser returns a node named "A" whose
remaining fields are the defaults the failed extractions store — a partially
populated node, not the absence of a result the claim requires. -/
theorem deserialize_truncated_counterexample :
    deserialize [Tok.str "Node", Tok.str "A"]
      = some ⟨"A", ⟨0, 0, 0⟩, ⟨0, 0, 0, 0⟩, ⟨0, 0, 0⟩, ⟨[]⟩,
          ⟨⟨0, 0, 0⟩, ⟨0, 0, 0⟩⟩, []⟩
    ∧ deserialize [Tok.str "Node", Tok.str "A"] ≠ none := by
  refine ⟨rfl, ?_⟩
  intro h
  rw [show deserialize [Tok.str "Node", Tok.str "A"]
      = some ⟨"A", ⟨0, 0, 0⟩, ⟨0, 0, 0, 0⟩, ⟨0, 0, 0⟩, ⟨[]⟩,
          ⟨⟨0, 0, 0⟩, ⟨0, 0, 0⟩⟩, []⟩ from rfl] at h
  exact Option.noConfusion h
